import Mathlib

/-!
Verification development for the Basic Asset Library (BAL) manager: a shallow
embedding of the entity resolution and versioning engine
(`plugin/openassetio_manager_bal/bal.py`) and the reference codec and
relationship dispatch of
(`plugin/openassetio_manager_bal/BasicAssetLibraryInterface.py`),
together with proofs about the embedded definitions.

Python strings are modelled as `List Char`, dicts as association lists looked
up by first match (Python dict keys are unique, so first match agrees with
dict lookup), exceptions as `Except`, and in-place mutation by explicit state
passing.  Machine integers do not occur (Python ints are unbounded), so `Nat`
and `Int` are used directly.
-/

set_option maxHeartbeats 1000000

/-- Python strings are modelled as lists of characters. -/
abbrev Str := List Char

/-- Dict lookup `m.get(k)` over an association list (first match). -/
def lookupStr {α : Type} : List (Str × α) → Str → Option α
  | [], _ => none
  | (k', v) :: rest, k => if k' = k then some v else lookupStr rest k

/-- Dict assignment `m[k] = v`: replace the value if the key is present,
otherwise append the new pair (insertion order semantics). -/
def setKey (m : List (Str × Str)) (k v : Str) : List (Str × Str) :=
  if (lookupStr m k).isSome then
    m.map (fun p => if p.1 = k then (p.1, v) else p)
  else
    m ++ [(k, v)]

/-- `s.split(c, 1)` when `c` occurs: the pieces before and after the first
occurrence of `c`; `none` when `c` does not occur. -/
def splitFirst (c : Char) : Str → Option (Str × Str)
  | [] => none
  | x :: xs =>
    if x = c then some ([], xs)
    else (splitFirst c xs).map (fun p => (x :: p.1, p.2))

/-- Split at the last occurrence of `c` (Python `rfind`-based splitting). -/
def splitLast (c : Char) (l : Str) : Option (Str × Str) :=
  match splitFirst c l.reverse with
  | some (a, b) => some (b.reverse, a.reverse)
  | none => none

/-- Python `s.split(c)`: split at every occurrence, keeping empty pieces. -/
def splitAll (c : Char) : Str → List Str
  | [] => [[]]
  | x :: xs =>
    if x = c then [] :: splitAll c xs
    else
      match splitAll c xs with
      | h :: t => (x :: h) :: t
      | [] => [[x]]

/-- Python `sep.join(parts)`. -/
def joinSep (c : Char) : List Str → Str
  | [] => []
  | [p] => p
  | p :: rest => p ++ c :: joinSep c rest

/-- Python `s.startswith(p)` on character lists. -/
def hasPrefixChars : Str → Str → Bool
  | [], _ => true
  | _ :: _, [] => false
  | p :: ps, x :: xs => p = x && hasPrefixChars ps xs

/-- Python `s.replace(a, b)` for single characters. -/
def replaceChar (a b : Char) (l : Str) : Str :=
  l.map (fun c => if c = a then b else c)

/-- ASCII decimal digit test. -/
def isDigitCh (c : Char) : Bool :=
  48 ≤ c.toNat && c.toNat ≤ 57

/-- ASCII letter test (`str.isalpha` restricted to ASCII, which is how the
source guards it with `isascii()`). -/
def isAsciiAlpha (c : Char) : Bool :=
  (65 ≤ c.toNat && c.toNat ≤ 90) || (97 ≤ c.toNat && c.toNat ≤ 122)

/-- ASCII lower-casing, as applied by `urlsplit` to the scheme (which is
already validated to be ASCII at that point). -/
def toLowerAscii (c : Char) : Char :=
  if 65 ≤ c.toNat && c.toNat ≤ 90 then Char.ofNat (c.toNat + 32) else c

/-- Decimal digit character for `n < 10`. -/
def digitCh (n : Nat) : Char := Char.ofNat (48 + n)

/-- Structural worker for `natToChars`: each step divides by ten, so `n`
itself bounds the number of steps and serves as fuel (keeping the recursion
structural lets the kernel evaluate it). -/
def natToCharsFuel : Nat → Nat → Str
  | 0, _ => []
  | fuel + 1, n =>
    if n < 10 then [digitCh n]
    else natToCharsFuel fuel (n / 10) ++ [digitCh (n % 10)]

/-- Decimal representation of a natural number (Python `str(int)` for
non-negative values). -/
def natToChars (n : Nat) : Str := natToCharsFuel (n + 1) n

/-- Value of an all-digits string; `none` if empty or any non-digit occurs. -/
def digitsVal (l : Str) : Option Nat :=
  if l ≠ [] ∧ l.all isDigitCh then
    some (l.foldl (fun a c => 10 * a + (c.toNat - 48)) 0)
  else none

/-- Characters stripped by Python `int(str)` (ASCII whitespace; the less
common Unicode space characters are not modelled, no reference uses them). -/
def isPySpace (c : Char) : Bool :=
  c = ' ' || c = '\t' || c = '\n' || c = '\r' || c.toNat = 11 || c.toNat = 12

/-- Python `int(s)`: optional surrounding whitespace, optional sign, decimal
digits.  (Underscore digit grouping accepted by CPython is not modelled; no
reference string in scope uses it.)  `none` models `ValueError`. -/
def pyIntOfChars (l : Str) : Option Int :=
  let t := ((l.dropWhile isPySpace).reverse.dropWhile isPySpace).reverse
  match t with
  | [] => none
  | c :: ds =>
    if c = '+' then (digitsVal ds).map Int.ofNat
    else if c = '-' then (digitsVal ds).map (fun n => -(n : Int))
    else (digitsVal (c :: ds)).map Int.ofNat

/-! ### `string.Template.safe_substitute`

The source expands `$var` / `${var}` via
`string.Template(value).safe_substitute(os.environ, **library["variables"])`.
`safe_substitute` scans left to right for `$`; `$$` is an escape producing a
single `$`; `$ident` and `${ident}` are replaced when the (chain) mapping has
the identifier and are left verbatim otherwise; an ill-formed `$` is left
verbatim.  Identifiers are ASCII `[_a-zA-Z][_a-zA-Z0-9]*`. -/

/-- Identifier start character of `string.Template`'s pattern. -/
def isIdentStart (c : Char) : Bool :=
  c = '_' || isAsciiAlpha c

/-- Identifier continuation character of `string.Template`'s pattern. -/
def isIdentChar (c : Char) : Bool :=
  isIdentStart c || isDigitCh c

/-- Longest identifier at the head of the input, with the rest; `none` when
the input does not start with an identifier. -/
def parseTmplIdent : Str → Option (Str × Str)
  | [] => none
  | c :: cs =>
    if isIdentStart c then some (c :: cs.takeWhile isIdentChar, cs.dropWhile isIdentChar)
    else none

/-- One step of the `safe_substitute` scan: the output chunk for the first
match (or first character) and the remaining input.  A `$` that heads none of
the three groups matches the pattern's empty `invalid` group, so only the `$`
itself is consumed and emitted verbatim. -/
def subChunk (vars : List (Str × Str)) : Str → Str × Str
  | [] => ([], [])
  | c :: rest =>
    if c = '$' then
      match rest with
      | [] => (['$'], [])
      | d :: ds =>
        if d = '$' then (['$'], ds)
        else if d = '{' then
          match parseTmplIdent ds with
          | some (id, r) =>
            match r with
            | r0 :: rs =>
              if r0 = '}' then
                match lookupStr vars id with
                | some v => (v, rs)
                | none => ('$' :: '{' :: (id ++ ['}']), rs)
              else (['$'], d :: ds)
            | [] => (['$'], d :: ds)
          | none => (['$'], d :: ds)
        else
          match parseTmplIdent (d :: ds) with
          | some (id, r2) =>
            match lookupStr vars id with
            | some v => (v, r2)
            | none => ('$' :: id, r2)
          | none => (['$'], d :: ds)
    else ([c], rest)

theorem dropWhile_length_le (p : Char → Bool) (l : Str) :
    (l.dropWhile p).length ≤ l.length := by
  induction l with
  | nil => simp [List.dropWhile]
  | cons c cs ih =>
    simp only [List.dropWhile]
    split
    · simp; omega
    · simp

theorem parseTmplIdent_length {l id r : Str}
    (h : parseTmplIdent l = some (id, r)) : r.length < l.length := by
  cases l with
  | nil => simp [parseTmplIdent] at h
  | cons c cs =>
    simp only [parseTmplIdent] at h
    split at h
    · simp only [Option.some.injEq, Prod.mk.injEq] at h
      have := dropWhile_length_le isIdentChar cs
      simp only [← h.2, List.length_cons]
      omega
    · exact absurd h (by simp)

theorem subChunk_length_lt (vars : List (Str × Str)) (c : Char) (rest : Str) :
    (subChunk vars (c :: rest)).2.length < (c :: rest).length := by
  by_cases hc : c = '$'
  · simp only [subChunk, hc, if_pos rfl]
    cases rest with
    | nil => simp
    | cons d ds =>
      by_cases hd : d = '$'
      · simp [hd]; omega
      · simp only [if_neg hd]
        by_cases hb : d = '{'
        · simp only [if_pos hb]
          cases hpi : parseTmplIdent ds with
          | none => simp
          | some p =>
            obtain ⟨id, r⟩ := p
            have hlen := parseTmplIdent_length hpi
            cases r with
            | nil => simp
            | cons r0 rs =>
              by_cases hr : r0 = '}'
              · simp only [if_pos hr]
                cases hlk : lookupStr vars id with
                | none => simp at hlen ⊢; omega
                | some v => simp at hlen ⊢; omega
              · simp only [if_neg hr]; simp
        · simp only [if_neg hb]
          cases hpi : parseTmplIdent (d :: ds) with
          | none => simp
          | some p =>
            obtain ⟨id, r2⟩ := p
            have hlen := parseTmplIdent_length hpi
            cases hlk : lookupStr vars id with
            | none => simp only [hlk]; simp at hlen ⊢; omega
            | some v => simp only [hlk]; simp at hlen ⊢; omega
  · simp [subChunk, hc]

/-- Structural worker for `safeSubstitute`: every scan step consumes at
least one character (`subChunk_length_lt`), so the input length bounds the
number of steps and serves as fuel (keeping the recursion structural lets
the kernel evaluate it). -/
def safeSubstituteFuel (vars : List (Str × Str)) : Nat → Str → Str
  | _, [] => []
  | 0, _ :: _ => []
  | fuel + 1, c :: rest =>
    (subChunk vars (c :: rest)).1 ++
      safeSubstituteFuel vars fuel (subChunk vars (c :: rest)).2

/-- `Template(s).safe_substitute(...)` with `vars` the chain of the keyword
arguments over `os.environ` (first match wins). -/
def safeSubstitute (vars : List (Str × Str)) (s : Str) : Str :=
  safeSubstituteFuel vars s.length s

/-! ### `urllib.parse`

Model of the parts of CPython's `urllib.parse` used by the source:
`urlparse` (via `urlsplit` and `_splitparams`), `urlunparse` (via
`urlunsplit`), and `parse_qs` (via `parse_qsl`).  The `ValueError` branches
for mismatched IPv6 brackets and for non-ASCII netlocs failing the NFKC
check are not modelled: every URL in this development has an empty netloc. -/

/-- The result of `urlsplit`. -/
structure SplitResult where
  scheme : Str
  netloc : Str
  path : Str
  query : Str
  fragment : Str
deriving DecidableEq, Repr

/-- The result of `urlparse` (adds the `params` component). -/
structure UrlParseResult where
  scheme : Str
  netloc : Str
  path : Str
  params : Str
  query : Str
  fragment : Str
deriving DecidableEq, Repr

/-- `scheme_chars` of `urllib.parse`. -/
def isSchemeChar (c : Char) : Bool :=
  isAsciiAlpha c || isDigitCh c || c = '+' || c = '-' || c = '.'

/-- `_UNSAFE_URL_BYTES_TO_REMOVE`: tab, CR and LF are removed from the URL
before any splitting. -/
def removeUnsafeUrlBytes (l : Str) : Str :=
  l.filter (fun c => !(c = '\t' || c = '\r' || c = '\n'))

/-- The scheme-splitting step of `urlsplit`: the text before the first `:` is
the scheme when it is non-empty, starts with an ASCII letter, and consists of
scheme characters only; the scheme is lower-cased.  Otherwise the scheme is
the empty default and the URL is left whole. -/
def schemeSplit (url : Str) : Str × Str :=
  match splitFirst ':' url with
  | none => ([], url)
  | some (before, after) =>
    match before with
    | [] => ([], url)
    | c :: _ =>
      if c.toNat ≤ 127 && isAsciiAlpha c && before.all isSchemeChar then
        (before.map toLowerAscii, after)
      else ([], url)

/-- `_splitnetloc(url, 2)` applied to the text after the leading `//`: the
netloc runs to the first of `/`, `?` or `#`. -/
def splitNetloc (l : Str) : Str × Str :=
  (l.takeWhile (fun c => !(c = '/' || c = '?' || c = '#')),
   l.dropWhile (fun c => !(c = '/' || c = '?' || c = '#')))

/-- The netloc step of `urlsplit`: `if url[:2] == '//':
netloc, url = _splitnetloc(url, 2)`. -/
def netlocStep (l : Str) : Str × Str :=
  match l with
  | '/' :: '/' :: rest => splitNetloc rest
  | other => ([], other)

/-- The fragment step of `urlsplit`: split at the first `#` when present. -/
def fragmentStep (l : Str) : Str × Str :=
  match splitFirst '#' l with
  | some (a, b) => (a, b)
  | none => (l, [])

/-- The query step of `urlsplit`: split at the first `?` when present. -/
def queryStep (l : Str) : Str × Str :=
  match splitFirst '?' l with
  | some (a, b) => (a, b)
  | none => (l, [])

/-- CPython `urlsplit` (with `allow_fragments=True` and empty default
scheme), on character lists. -/
def urlsplitChars (url : Str) : SplitResult :=
  let url0 := removeUnsafeUrlBytes url
  let sp := schemeSplit url0
  let nsp := netlocStep sp.2
  let fsp := fragmentStep nsp.2
  let qsp := queryStep fsp.1
  ⟨sp.1, nsp.1, qsp.1, qsp.2, fsp.2⟩

/-- `uses_params` of `urllib.parse`. -/
def usesParamsSchemes : List Str :=
  ["", "ftp", "hdl", "prospero", "http", "imap", "https", "shttp", "rtsp",
   "rtspu", "sip", "sips", "mms", "sftp", "tel"].map String.data

/-- `uses_netloc` of `urllib.parse`. -/
def usesNetlocSchemes : List Str :=
  ["", "ftp", "http", "gopher", "nntp", "telnet", "imap", "wais", "file",
   "mms", "https", "shttp", "snews", "prospero", "rtsp", "rtspu", "rsync",
   "svn", "svn+ssh", "sftp", "nfs", "git", "git+ssh", "ws", "wss"].map
    String.data

/-- `_splitparams`: split the path at the first `;` that is not before the
last `/` (the `;` search starts at `url.rfind('/')`). -/
def splitParamsChars (url : Str) : Str × Str :=
  match splitLast '/' url with
  | some (pre, post) =>
    match splitFirst ';' post with
    | some (a, b) => (pre ++ '/' :: a, b)
    | none => (url, [])
  | none =>
    match splitFirst ';' url with
    | some (a, b) => (a, b)
    | none => (url, [])

/-- CPython `urlparse`: `urlsplit` plus params splitting for the schemes in
`uses_params`. -/
def urlparseChars (url : Str) : UrlParseResult :=
  let s := urlsplitChars url
  let pp :=
    if usesParamsSchemes.any (· = s.scheme) && s.path.any (· = ';') then
      splitParamsChars s.path
    else (s.path, [])
  ⟨s.scheme, s.netloc, pp.1, pp.2, s.query, s.fragment⟩

/-- `posixpath.normpath`: collapse `.`, `..` and repeated separators,
preserving the POSIX special case of exactly two leading slashes. -/
def normpathChars (path : Str) : Str :=
  if path = [] then ['.']
  else
    let initialSlashes : Nat :=
      if hasPrefixChars ('/' :: '/' :: []) path &&
         !(hasPrefixChars ('/' :: '/' :: '/' :: []) path) then 2
      else if hasPrefixChars ('/' :: []) path then 1
      else 0
    let comps := splitAll '/' path
    let newComps := comps.foldl
      (fun acc comp =>
        if comp = [] ∨ comp = ['.'] then acc
        else if comp ≠ ['.', '.'] ∨ (initialSlashes = 0 ∧ acc = []) ∨
                (acc ≠ [] ∧ acc.getLast? = some ['.', '.']) then acc ++ [comp]
        else if acc ≠ [] then acc.dropLast
        else acc)
      []
    let joined := List.replicate initialSlashes '/' ++ joinSep '/' newComps
    if joined = [] then ['.'] else joined

/-- CPython `urlunsplit`. -/
def urlunsplitChars (scheme netloc path query fragment : Str) : Str :=
  let url :=
    if netloc ≠ [] ∨
       (scheme ≠ [] ∧ usesNetlocSchemes.any (· = scheme) = true ∧
        ¬ hasPrefixChars ('/' :: '/' :: []) path = true) then
      let u := if path ≠ [] ∧ ¬ hasPrefixChars ('/' :: []) path = true
               then '/' :: path else path
      '/' :: '/' :: (netloc ++ u)
    else path
  let url := if scheme ≠ [] then scheme ++ ':' :: url else url
  let url := if query ≠ [] then url ++ '?' :: query else url
  if fragment ≠ [] then url ++ '#' :: fragment else url

/-- CPython `urlunparse`: re-attach params, then `urlunsplit`. -/
def urlunparseChars (r : UrlParseResult) : Str :=
  let path := if r.params ≠ [] then r.path ++ ';' :: r.params else r.path
  urlunsplitChars r.scheme r.netloc path r.query r.fragment

/-- `bal.normalize_file_url`: normalize the path component of a `file:`
string, preserving a trailing slash, and return the input unchanged when
normalization is a no-op (to avoid spurious canonicalization such as
`file:123` becoming `file:///123`). -/
def normalize_file_url (maybe_file_url : Str) : Str :=
  let parsed := urlparseChars maybe_file_url
  let normed0 := normpathChars parsed.path
  let normed_path :=
    if parsed.path.getLast? = some '/' then normed0 ++ ['/'] else normed0
  if parsed.path = normed_path then maybe_file_url
  else urlunparseChars { parsed with path := normed_path }

/-! ### `parse_qs` / `parse_qsl` and the reference query parameters -/

/-- Value of a hexadecimal digit character. -/
def hexVal (c : Char) : Nat :=
  if isDigitCh c then c.toNat - 48
  else if 97 ≤ c.toNat ∧ c.toNat ≤ 102 then c.toNat - 87
  else c.toNat - 55

/-- Hexadecimal digit test. -/
def isHexCh (c : Char) : Bool :=
  isDigitCh c || (97 ≤ c.toNat && c.toNat ≤ 102) || (65 ≤ c.toNat && c.toNat ≤ 70)

/-- CPython `unquote` restricted to single-byte (ASCII) percent escapes.
Multi-byte UTF-8 percent sequences and invalid-escape passthrough subtleties
are not modelled byte-exactly; no reference string in this development
contains a `%`. -/
def unquoteChars : Str → Str
  | [] => []
  | c :: h1 :: h2 :: rest2 =>
    if c = '%' && isHexCh h1 && isHexCh h2 then
      Char.ofNat (16 * hexVal h1 + hexVal h2) :: unquoteChars rest2
    else c :: unquoteChars (h1 :: h2 :: rest2)
  | c :: rest => c :: unquoteChars rest

/-- CPython `parse_qsl` with default arguments (`keep_blank_values=False`,
separator `&`): pairs with no `=` or with an empty value are dropped, `+`
becomes a space, percent escapes are decoded. -/
def parseQsl (qs : Str) : List (Str × Str) :=
  let query_args := if qs = [] then [] else splitAll '&' qs
  query_args.filterMap fun name_value =>
    if name_value = [] then none
    else
      match splitFirst '=' name_value with
      | none => none
      | some (n, v) =>
        if v = [] then none
        else some (unquoteChars (replaceChar '+' ' ' n),
                   unquoteChars (replaceChar '+' ' ' v))

/-- `parse_qs(qs)[k][-1]`: the last value for key `k`, or `none` when the key
is absent from the parsed query dict. -/
def lastQueryValue (qs : Str) (k : Str) : Option Str :=
  (((parseQsl qs).filter (fun p => p.1 = k)).map (·.2)).getLast?

/-! ### BAL data model (`bal.py`)

JSON values reaching the engine are modelled with the scalar types that occur
in trait properties (string, int, bool; floats do not appear in any claim).
A version record's `traits` field is `Option`-valued: `none` models both a
missing `"traits"` key and an explicit JSON `null` (the source reads it with
`version_dict.get("traits")`, which conflates the two). -/

/-- A scalar trait-property value. -/
inductive PyValue where
  | s (v : Str)
  | i (v : Int)
  | b (v : Bool)
deriving DecidableEq, Repr

/-- Properties of one trait: property key to scalar value. -/
abbrev TraitProps := List (Str × PyValue)

/-- Traits data: trait id to property dict. -/
abbrev TraitsDict := List (Str × TraitProps)

/-- `bal.EntityInfo`: name, optional version, access-mode name string. -/
structure EntityInfo where
  name : Str
  version : Option Nat
  access : Str
deriving DecidableEq, Repr

/-- One entry of an entity's `"versions"` list. -/
structure VersionDict where
  traits : Option TraitsDict
deriving DecidableEq, Repr

/-- One entry of an entity's `"relations"` list. -/
structure RelationDict where
  traits : TraitsDict
  entities : List Str
deriving DecidableEq, Repr

/-- The library dict for one entity: its versions, relations (defaulting to
an empty list via `entity_dict.get("relations", [])`) and per-access-mode
override records (`entity_dict.get("overrideByAccess", {})`).  An override
value of `none` models an explicit JSON `null` record. -/
structure EntityDict where
  versions : List VersionDict
  relations : List RelationDict
  overrideByAccess : List (Str × Option VersionDict)
deriving DecidableEq, Repr

/-- The loaded library: the `"entities"` mapping and the `"variables"`
mapping.  (The `"managementPolicy"` key is not needed by any claim.) -/
structure Library where
  entities : List (Str × EntityDict)
  variablesMap : List (Str × Str)
deriving DecidableEq, Repr

/-- `bal.Relation`. -/
structure Relation where
  traits : TraitsDict
  entity_infos : List EntityInfo
deriving DecidableEq, Repr

/-- `bal.Entity`: the version tag is `Option`-valued because the
access-override path of `_entity_version_dict_and_tag` passes the locator's
own (possibly `None`) version through. -/
structure Entity where
  version : Option Nat
  traits : TraitsDict
  relations : List Relation
deriving DecidableEq, Repr

/-- The BAL exception taxonomy, plus the unhandled built-in exceptions that
can escape the relationship handlers (`IndexError` from indexing an empty
list, `ValueError` from `int()`). -/
inductive BalError where
  | unknownBALEntity (info : EntityInfo)
  | invalidEntityVersion (info : EntityInfo)
  | inaccessibleEntity (info : EntityInfo)
  | indexError
  | valueError
deriving DecidableEq, Repr

/-! ### `bal.py` operations -/

/-- `bal._library_entity_dict`: `library["entities"].get(name)`. -/
def library_entity_dict (entity_info : EntityInfo) (library : Library) :
    Option EntityDict :=
  lookupStr library.entities entity_info.name

/-- `bal._ensure_library_entity_dict`:
`library["entities"].setdefault(name, {"versions": []})`.  The possibly
extended library is returned alongside the entity dict (explicit state
passing for the in-place `setdefault`). -/
def ensure_library_entity_dict (entity_info : EntityInfo) (library : Library) :
    EntityDict × Library :=
  match lookupStr library.entities entity_info.name with
  | some ed => (ed, library)
  | none =>
    let ed : EntityDict := ⟨[], [], []⟩
    (ed, { library with entities := library.entities ++ [(entity_info.name, ed)] })

/-- `bal._entity_version_dict_and_tag`.  The value component `(record, tag)`
follows the source line by line; the second component is the library state
after the internal `setdefault` (unchanged whenever the entity exists).
Python's `if entity_info.version:` is truthiness, so a zero version falls
through to the "latest" branch like `None` does. -/
def entity_version_dict_and_tag (entity_info : EntityInfo) (library : Library) :
    (Option VersionDict × Option Nat) × Library :=
  let el := ensure_library_entity_dict entity_info library
  let entity_dict := el.1
  let versions_list := entity_dict.versions
  match lookupStr entity_dict.overrideByAccess entity_info.access with
  | some override_record => ((override_record, entity_info.version), el.2)
  | none =>
    if versions_list = [] then ((none, none), el.2)
    else
      match entity_info.version with
      | some v =>
        if v ≠ 0 then
          if versions_list.length ≤ v - 1 then ((none, none), el.2)
          else ((versions_list[v - 1]?, some v), el.2)
        else ((versions_list.getLast?, some versions_list.length), el.2)
      | none => ((versions_list.getLast?, some versions_list.length), el.2)

/-- `bal.exists` (named `existsEntity` here because `exists` is reserved in
Lean): the entity name must be present and the selected version record
non-`None`. -/
def existsEntity (entity_info : EntityInfo) (library : Library) : Bool :=
  if (lookupStr library.entities entity_info.name).isNone then false
  else ((entity_version_dict_and_tag entity_info library).1.1).isSome

/-- `bal._dict_has_traits`: every queried trait id is a top-level key and
every queried property matches by equality (`data[trait_id].get(key) !=
value` fails the match); extra keys in the data are ignored. -/
def dict_has_traits (data : TraitsDict) (traits : TraitsDict) : Bool :=
  traits.all fun td =>
    match lookupStr data td.1 with
    | none => false
    | some props => td.2.all fun kv => lookupStr props kv.1 = some kv.2

/-- `bal._entity_has_trait_set`. -/
def entity_has_trait_set (entity_data : Entity) (trait_set : List Str) : Bool :=
  trait_set.all fun t => (lookupStr entity_data.traits t).isSome

/-- `bal._copy_and_expand_trait_properties`: for every string property,
substitute with the library variables chained over the process environment
(library variables win), then normalize values that begin with `file:`.
The process environment is passed explicitly. -/
def copy_and_expand_trait_properties (entity_version_dict : VersionDict)
    (environ : List (Str × Str)) (library : Library) : VersionDict :=
  let vars := library.variablesMap ++ environ
  let filePfx : Str := "file:".data
  ⟨entity_version_dict.traits.map fun td =>
    td.map fun tp =>
      (tp.1,
       tp.2.map fun kv =>
         match kv.2 with
         | PyValue.s v =>
           let subbed_val := safeSubstitute vars v
           (kv.1, PyValue.s (if hasPrefixChars filePfx subbed_val then
                               normalize_file_url subbed_val
                             else subbed_val))
         | other => (kv.1, other))⟩

/-- `bal.entity`: resolve the library record addressed by an `EntityInfo`. -/
def entity (entity_info : EntityInfo) (library : Library)
    (environ : List (Str × Str)) : Except BalError Entity :=
  match library_entity_dict entity_info library with
  | none => Except.error (BalError.unknownBALEntity entity_info)
  | some entity_dict =>
    let relations := entity_dict.relations.map fun relation =>
      Relation.mk relation.traits
        (relation.entities.map fun name => EntityInfo.mk name none entity_info.access)
    match (entity_version_dict_and_tag entity_info library).1 with
    | (none, _) => Except.error (BalError.invalidEntityVersion entity_info)
    | (some version_dict, version_idx) =>
      match version_dict.traits with
      | none => Except.error (BalError.inaccessibleEntity entity_info)
      | some _ =>
        let expanded := copy_and_expand_trait_properties version_dict environ library
        Except.ok (Entity.mk version_idx (expanded.traits.getD []) relations)

/-- `[num_versions, ..., 1]`, the tags produced by
`range(num_versions, 0, -1)`. -/
def descRange : Nat → List Nat
  | 0 => []
  | n + 1 => (n + 1) :: descRange n

/-- `bal.versions`: newest first, optionally preceded by an unversioned
"always latest" info. -/
def versionsOf (entity_info : EntityInfo) (include_latest : Bool)
    (library : Library) : Except BalError (List EntityInfo) :=
  match library_entity_dict entity_info library with
  | none => Except.error (BalError.unknownBALEntity entity_info)
  | some entity_dict =>
    let latest :=
      if include_latest then [EntityInfo.mk entity_info.name none entity_info.access]
      else []
    Except.ok (latest ++ (descRange entity_dict.versions.length).map fun i =>
      EntityInfo.mk entity_info.name (some i) entity_info.access)

/-- Python truthiness of the optional `result_trait_set` argument: falsy for
both `None` and an empty set. -/
def resultFilterActive (result_trait_set : Option (List Str)) : Bool :=
  match result_trait_set with
  | some (_ :: _) => true
  | _ => false

/-- The inner loop of `bal.related_references` over one relation's
`entity_infos`: resolve each related entity (raising on the first failure),
then filter by the optional result trait set. -/
def relatedFromInfos (result_trait_set : Option (List Str)) (library : Library)
    (environ : List (Str × Str)) :
    List EntityInfo → Except BalError (List EntityInfo)
  | [] => Except.ok []
  | ei :: rest =>
    match entity ei library environ with
    | Except.error e => Except.error e
    | Except.ok relation_data =>
      match relatedFromInfos result_trait_set library environ rest with
      | Except.error e => Except.error e
      | Except.ok tail =>
        if resultFilterActive result_trait_set &&
            ! entity_has_trait_set relation_data (result_trait_set.getD []) then
          Except.ok tail
        else
          Except.ok (ei :: tail)

/-- The outer loop of `bal.related_references` over the entity's
relations. -/
def relatedFromRelations (requested_relation_traits : TraitsDict)
    (result_trait_set : Option (List Str)) (library : Library)
    (environ : List (Str × Str)) :
    List Relation → Except BalError (List EntityInfo)
  | [] => Except.ok []
  | relation :: rest =>
    if ¬ dict_has_traits relation.traits requested_relation_traits then
      relatedFromRelations requested_relation_traits result_trait_set library
        environ rest
    else
      match relatedFromInfos result_trait_set library environ
        relation.entity_infos with
      | Except.error e => Except.error e
      | Except.ok here =>
        match relatedFromRelations requested_relation_traits result_trait_set
          library environ rest with
        | Except.error e => Except.error e
        | Except.ok tail => Except.ok (here ++ tail)

/-- `bal.related_references`. -/
def related_references (entity_info : EntityInfo)
    (requested_relation_traits : TraitsDict)
    (result_trait_set : Option (List Str)) (library : Library)
    (environ : List (Str × Str)) : Except BalError (List EntityInfo) :=
  match entity entity_info library environ with
  | Except.error e => Except.error e
  | Except.ok entity_data =>
    relatedFromRelations requested_relation_traits result_trait_set library
      environ entity_data.relations

/-! ### Publishing primitives and library loading (`bal.py`) -/

/-- Replace the dict stored for `name` in the entities mapping (models an
in-place mutation of the aliased entity dict). -/
def setEntityDict (library : Library) (name : Str) (ed : EntityDict) : Library :=
  { library with
    entities := library.entities.map fun p => if p.1 = name then (p.1, ed) else p }

/-- `bal._next_entity_version_dict_and_tag`: append a fresh
`{"traits": {}}` version entry and return it with its 1-indexed tag.  The
appended dict is aliased into the library, so the updated library is
returned as well. -/
def next_entity_version_dict_and_tag (entity_info : EntityInfo)
    (library : Library) : (VersionDict × Nat) × Library :=
  let el := ensure_library_entity_dict entity_info library
  let version_dict : VersionDict := ⟨some []⟩
  let ed := { el.1 with versions := el.1.versions ++ [version_dict] }
  ((version_dict, ed.versions.length), setEntityDict el.2 entity_info.name ed)

/-- Overwrite the `"traits"` value of the last version of `name` (models the
aliased `version_dict["traits"] = traits_dict` assignment in
`create_or_update_entity`). -/
def setLastVersionTraits (library : Library) (name : Str) (td : TraitsDict) :
    Library :=
  { library with
    entities := library.entities.map fun p =>
      if p.1 = name then
        (p.1, { p.2 with versions := p.2.versions.dropLast ++ [⟨some td⟩] })
      else p }

/-- `bal.create_or_update_entity`.  The source mutates the argument
(`entity_info.version = version_tag`) and returns the same object, so the
result carries both the returned locator and the post-call state of the
caller's argument, which are one and the same value. -/
def create_or_update_entity (entity_info : EntityInfo) (traits_dict : TraitsDict)
    (library : Library) : (EntityInfo × EntityInfo) × Library :=
  let nv := next_entity_version_dict_and_tag entity_info library
  let version_tag := nv.1.2
  let library2 := setLastVersionTraits nv.2 entity_info.name traits_dict
  let updated : EntityInfo := { entity_info with version := some version_tag }
  ((updated, updated), library2)

/-- The unhandled Python runtime failure relevant to `load_library`. -/
inductive PyRuntimeError where
  | unboundLocalVariable
deriving DecidableEq, Repr

/-- The JSON document read from a library file, restricted to the keys the
engine uses. -/
structure RawLibrary where
  entities : Option (List (Str × EntityDict))
  variablesMap : Option (List (Str × Str))
deriving DecidableEq, Repr

/-- The dict returned by `load_library`: the JSON contents plus the
`"variables"` key ensured by `setdefault` and updated with the implicit
variables.  `entities` stays `none` when the JSON did not define it (the
function never inserts an `"entities"` key). -/
structure LoadedLibrary where
  entities : Option (List (Str × EntityDict))
  variablesMap : List (Str × Str)
deriving DecidableEq, Repr

/-- `bal.load_library`.  File access and the OS path helpers are passed in as
functions (`open`+`json.load`, `os.path.abspath`, `os.path.dirname`,
`pathlib.Path.as_uri`).  On the no-path branch the local `lib_dir_url` is
never assigned (only `lib_path` and `lib_dir` get fallback values), so the
read at `subs_vars["bal_library_dir_url"] = lib_dir_url` raises
`UnboundLocalError`; unassigned locals are modelled as `Option` values, and
the two dict writes before the raising line are invisible because the
function never returns. -/
def load_library (path : Str) (readLibraryJson : Str → RawLibrary)
    (abspath dirname dirAsUri : Str → Str) :
    Except PyRuntimeError LoadedLibrary :=
  let step :
      RawLibrary × Str × Str × Option Str :=
    if path ≠ [] then
      let raw := readLibraryJson path
      let lib_path := abspath path
      let lib_dir := dirname lib_path
      (raw, lib_path, lib_dir, some (dirAsUri lib_dir))
    else
      (⟨none, none⟩, [], [], none)
  match step with
  | (raw, lib_path, lib_dir, lib_dir_url) =>
    match lib_dir_url with
    | none => Except.error PyRuntimeError.unboundLocalVariable
    | some url =>
      let subs_vars := raw.variablesMap.getD []
      let subs_vars := setKey subs_vars "bal_library_path".data lib_path
      let subs_vars := setKey subs_vars "bal_library_dir".data lib_dir
      let subs_vars := setKey subs_vars "bal_library_dir_url".data url
      Except.ok ⟨raw.entities, subs_vars⟩

/-! ### Reference codec (`BasicAssetLibraryInterface.py`)

`__parse_entity_ref` / `__build_entity_ref`, with the default
`entity_reference_url_scheme` setting (`"bal"`, hence the `bal:///`
prefix). -/

/-- The reasons carried by `MalformedEntityReference`, in source order:
"Missing entity name in path component", "Version query parameter 'v' must
be an int or 'latest'", "Version query parameter 'v' must be greater than
1". -/
inductive MalformedReason where
  | missingEntityName
  | versionMustBeInt
  | versionBelowMinimum
deriving DecidableEq, Repr

/-- `MalformedEntityReference(reason, entity_ref)`. -/
structure MalformedRef where
  reason : MalformedReason
  ref : Str
deriving DecidableEq, Repr

/-- `VERSION_TAG_LATEST`. -/
def versionTagLatest : Str := "latest".data

/-- The `v` query-parameter key. -/
def vParamKey : Str := "v".data

/-- `__version_from_query_params`: absent `v` or `v=latest` mean "latest"
(`None`); otherwise the last `v` occurrence must parse as an int that is at
least 1. -/
def version_from_query_params (query : Str) (entity_ref : Str) :
    Except MalformedRef (Option Nat) :=
  match lastQueryValue query vParamKey with
  | none => Except.ok none
  | some v_str =>
    if v_str = versionTagLatest then Except.ok none
    else
      match pyIntOfChars v_str with
      | none => Except.error ⟨MalformedReason.versionMustBeInt, entity_ref⟩
      | some v =>
        if v < 1 then Except.error ⟨MalformedReason.versionBelowMinimum, entity_ref⟩
        else Except.ok (some v.toNat)

/-- `__parse_entity_ref`: URI-parse the reference, require a path longer
than the leading separator, take the path minus its first character as the
name, and read the optional version from the query. -/
def parse_entity_ref (entity_ref : Str) (access : Str) :
    Except MalformedRef EntityInfo :=
  let uri_parts := urlparseChars entity_ref
  if uri_parts.path.length ≤ 1 then
    Except.error ⟨MalformedReason.missingEntityName, entity_ref⟩
  else
    let name := uri_parts.path.drop 1
    match (if uri_parts.query ≠ [] then
             version_from_query_params uri_parts.query entity_ref
           else Except.ok none) with
    | Except.error e => Except.error e
    | Except.ok version => Except.ok ⟨name, version, access⟩

/-- The `bal:///` entity-reference prefix (default scheme setting). -/
def balRefHead : Str := "bal:///".data

/-- `__build_entity_ref`: prefix plus name, appending `?v=<version>` only
for a truthy version (so `None` formats without a query string). -/
def build_entity_ref (entity_info : EntityInfo) : Str :=
  balRefHead ++ entity_info.name ++
    (match entity_info.version with
     | some v => if v ≠ 0 then '?' :: 'v' :: '=' :: natToChars v else []
     | none => [])

/-! ### Relationship handlers (`BasicAssetLibraryInterface.py`) -/

/-- `StableTrait.kId` from `openassetio_mediacreation`. -/
def stableTraitId : Str := "openassetio-mediacreation:lifecycle.Stable".data

/-- `VersionTrait.kId` from `openassetio_mediacreation`. -/
def versionTraitId : Str := "openassetio-mediacreation:lifecycle.Version".data

/-- The `specifiedTag` property key of the version trait. -/
def specifiedTagKey : Str := "specifiedTag".data

/-- `traits_data.traitSet()` for a traits dict. -/
def traitSetOf (d : TraitsDict) : List Str := d.map (·.1)

/-- `VersionTrait(relationship_traits_data).getSpecifiedTag()`: the string
value of the property, or `none` when unset.  (The `TypeError` raised by the
accessor for a non-string value is not modelled; no claim sets one.) -/
def getSpecifiedTag (d : TraitsDict) : Option Str :=
  match lookupStr d versionTraitId with
  | none => none
  | some props =>
    match lookupStr props specifiedTagKey with
    | some (PyValue.s v) => some v
    | _ => none

/-- `__get_relations_entity_versions`: all versions of the entity (with the
"always latest" info prepended unless the stable variant was requested),
optionally filtered to a single specified tag.  `versions[0]` on an empty
list raises `IndexError`; `int(specified_version)` on a non-numeric tag
raises `ValueError`.  An empty-string specified tag is falsy, leaving the
list unfiltered. -/
def get_relations_entity_versions (entity_info : EntityInfo)
    (relationship_traits : TraitsDict) (library : Library) :
    Except BalError (List EntityInfo) :=
  let include_latest := ! (traitSetOf relationship_traits).any (· = stableTraitId)
  match versionsOf entity_info include_latest library with
  | Except.error e => Except.error e
  | Except.ok vs =>
    match getSpecifiedTag relationship_traits with
    | none => Except.ok vs
    | some specified_version =>
      if specified_version = [] then Except.ok vs
      else if specified_version = versionTagLatest then
        match vs with
        | [] => Except.error BalError.indexError
        | v :: _ => Except.ok [v]
      else
        match pyIntOfChars specified_version with
        | none => Except.error BalError.valueError
        | some n => Except.ok (vs.filter fun i => (i.version.map Int.ofNat) = some n)

/-- `__get_relation_stable`: an unversioned (`is None`) info resolves to the
newest concrete version (`versions[0]` of the list without the "latest"
entry, raising `IndexError` when the entity has no versions); a versioned
info is returned unchanged. -/
def get_relation_stable (entity_info : EntityInfo) (library : Library) :
    Except BalError (List EntityInfo) :=
  match entity_info.version with
  | none =>
    match versionsOf entity_info false library with
    | Except.error e => Except.error e
    | Except.ok [] => Except.error BalError.indexError
    | Except.ok (v :: _) => Except.ok [v]
  | some _ => Except.ok [entity_info]

/-! ### Spec-side definition for the record-selection claim -/

/-- The spec's four-step version/record selection order, written from the
specification text for comparison with `entity_version_dict_and_tag`:
(1) an access override is returned with the locator's original tag;
(2) an empty version list is "not found"; (3) an explicit version indexes
`versions[version - 1]`, out of bounds being "not found"; (4) otherwise the
last record with tag `len(versions)`. -/
def select_version_record_spec (entity_info : EntityInfo) (ed : EntityDict) :
    Option VersionDict × Option Nat :=
  match lookupStr ed.overrideByAccess entity_info.access with
  | some override_record => (override_record, entity_info.version)
  | none =>
    if ed.versions = [] then (none, none)
    else
      match entity_info.version with
      | some v =>
        match ed.versions[v - 1]? with
        | some vd => (some vd, some v)
        | none => (none, none)
      | none => (ed.versions.getLast?, some ed.versions.length)

/-! ### Concrete fixtures used by witnesses and counterexamples -/

/-- The `read` access-mode name. -/
def accessRead : Str := "read".data

/-- A sample entity name. -/
def nameA : Str := "a".data

/-- A sample related-entity name that is absent from the fixtures. -/
def nameMissing : Str := "missing".data

/-- A sample trait id. -/
def traitT : Str := "t".data

/-- A sample property key. -/
def propP : Str := "p".data

/-- A version record with one string property. -/
def vdPlain : VersionDict := ⟨some [(traitT, [(propP, PyValue.s propP)])]⟩

/-- A library with one entity `a` holding two plain versions. -/
def libTwoVersions : Library :=
  ⟨[(nameA, ⟨[vdPlain, vdPlain], [], []⟩)], []⟩

/-- An unversioned read-mode locator for entity `a`. -/
def infoA : EntityInfo := ⟨nameA, none, accessRead⟩

/-! ### C1: version/record selection order -/

/-- C1: for every entity record present in the library and every locator
whose version is `None` or a positive integer, the source's
`_entity_version_dict_and_tag` selection agrees with the spec's four-step
order (access override with the original tag; empty version list is not
found; explicit version indexes `version - 1` with out-of-bounds not found;
otherwise the last record with tag `len(versions)`). -/
theorem claim1_selection_follows_spec_order (entity_info : EntityInfo)
    (library : Library) (ed : EntityDict)
    (hpres : lookupStr library.entities entity_info.name = some ed)
    (hver : entity_info.version = none ∨
            ∃ v, entity_info.version = some v ∧ 1 ≤ v) :
    (entity_version_dict_and_tag entity_info library).1 =
      select_version_record_spec entity_info ed := by
  have hens : ensure_library_entity_dict entity_info library = (ed, library) := by
    unfold ensure_library_entity_dict
    rw [hpres]
  unfold entity_version_dict_and_tag select_version_record_spec
  rw [hens]
  cases hov : lookupStr ed.overrideByAccess entity_info.access with
  | some ov => simp [hov]
  | none =>
    by_cases hne : ed.versions = []
    · simp [hov, hne]
    · rcases hver with hv | ⟨v, hv, hge⟩
      · simp [hov, hne, hv]
      · have hvnz : v ≠ 0 := by omega
        by_cases hlen : ed.versions.length ≤ v - 1
        · have hq : ed.versions[v - 1]? = none := List.getElem?_eq_none hlen
          simp [hov, hne, hv, hvnz, hlen, hq]
        · have hq : ed.versions[v - 1]? =
              some (ed.versions.get ⟨v - 1, by omega⟩) := by
            rw [List.getElem?_eq_getElem (by omega)]
            simp [List.get_eq_getElem]
          simp [hov, hne, hv, hvnz, hlen, hq]

/-- C1 witness: the theorem applied to the two-version fixture library with
an explicit version-1 locator. -/
theorem claim1_witness :
    (entity_version_dict_and_tag ⟨nameA, some 1, accessRead⟩ libTwoVersions).1 =
      select_version_record_spec ⟨nameA, some 1, accessRead⟩
        ⟨[vdPlain, vdPlain], [], []⟩ :=
  claim1_selection_follows_spec_order ⟨nameA, some 1, accessRead⟩
    libTwoVersions ⟨[vdPlain, vdPlain], [], []⟩ (by decide)
    (Or.inr ⟨1, rfl, le_refl 1⟩)

/-! ### C2: existence check -/

/-- A library whose entity `a` is access-blocked for `read` by an
`overrideByAccess` record with a null `traits` value, while still holding
one ordinary version. -/
def libBlockedOverride : Library :=
  ⟨[(nameA, ⟨[vdPlain], [], [(accessRead, some ⟨none⟩)]⟩)], []⟩

/-- C2 counterexample: the claim requires `exists` to be false when the
selected record is access-blocked (its traits value explicitly null), but on
this library the selected record for the read locator is the blocked
override `{traits: null}` and `exists` still returns true — the source's
`exists` never inspects the record's traits value. -/
theorem claim2_counterexample :
    existsEntity infoA libBlockedOverride = true ∧
    (entity_version_dict_and_tag infoA libBlockedOverride).1.1 =
      some ⟨none⟩ := by
  constructor <;> rfl

/-- C2 amended: `exists(locator)` is true iff the entity name is present and
the selected version record is non-null; an access-blocked record (present
but with empty/null traits) still counts as existing. -/
theorem claim2_exists_iff (entity_info : EntityInfo) (library : Library) :
    existsEntity entity_info library = true ↔
      (lookupStr library.entities entity_info.name).isSome = true ∧
      ((entity_version_dict_and_tag entity_info library).1.1).isSome = true := by
  unfold existsEntity
  cases h : lookupStr library.entities entity_info.name with
  | none => simp [h]
  | some ed => simp [h]

/-! ### C3: InaccessibleEntity characterization -/

/-- A library whose entity `a` has a single version whose `traits` value is
an explicitly empty mapping (`{"traits": {}}`). -/
def libEmptyTraits : Library := ⟨[(nameA, ⟨[⟨some []⟩], [], []⟩)], []⟩

/-- C3 counterexample: the claim requires `InaccessibleEntity` whenever the
selected record's traits mapping is an empty mapping, but a record whose
`traits` value is the empty dict resolves successfully (the source only
raises when `version_dict.get("traits") is None`, and `{}` is not `None`). -/
theorem claim3_counterexample :
    (entity_version_dict_and_tag infoA libEmptyTraits).1.1 = some ⟨some []⟩ ∧
    entity infoA libEmptyTraits [] = Except.ok ⟨some 1, [], []⟩ := by
  constructor <;> rfl

/-- C3 amended: `bal.entity` raises `InaccessibleEntity` exactly when the
entity is present and the selected version record exists with a null or
missing traits value; a record whose traits value is an empty mapping does
not raise and instead resolves to an entity with no traits. -/
theorem claim3_inaccessible_iff (entity_info : EntityInfo) (library : Library)
    (environ : List (Str × Str)) :
    entity entity_info library environ =
        Except.error (BalError.inaccessibleEntity entity_info) ↔
      (∃ ed, lookupStr library.entities entity_info.name = some ed) ∧
      (∃ vd, (entity_version_dict_and_tag entity_info library).1.1 = some vd ∧
        vd.traits = none) := by
  unfold entity library_entity_dict
  cases hlk : lookupStr library.entities entity_info.name with
  | none => simp [hlk]
  | some ed =>
    rcases hsel : (entity_version_dict_and_tag entity_info library).1 with ⟨o, t⟩
    cases o with
    | none => simp [hsel]
    | some vd =>
      cases hvt : vd.traits with
      | none => simp [hsel, hvt]
      | some td => simp [hsel, hvt]

/-! ### C6: create-or-update and locator mutation -/

/-- An empty library. -/
def libEmpty : Library := ⟨[], []⟩

/-- C6 counterexample: the claim requires the input locator to be left
unchanged, but after the call the argument object's version has been set to
the new tag (the source assigns `entity_info.version = version_tag` and
returns the same object). -/
theorem claim6_counterexample :
    (create_or_update_entity infoA [] libEmpty).1.2 ≠ infoA ∧
    (create_or_update_entity infoA [] libEmpty).1.2 =
      ⟨nameA, some 1, accessRead⟩ := by
  constructor
  · decide
  · rfl

/-- C6 amended: `create_or_update_entity` returns the input locator itself
with its version mutated in place to the newly created tag (one more than
the entity's previous version count); the returned locator and the post-call
state of the argument are the same object, not a fresh copy. -/
theorem claim6_create_or_update (entity_info : EntityInfo)
    (traits_dict : TraitsDict) (library : Library) :
    (create_or_update_entity entity_info traits_dict library).1.1 =
      { entity_info with
        version :=
          some ((ensure_library_entity_dict entity_info library).1.versions.length
            + 1) } ∧
    (create_or_update_entity entity_info traits_dict library).1.2 =
      (create_or_update_entity entity_info traits_dict library).1.1 := by
  unfold create_or_update_entity next_entity_version_dict_and_tag
  simp

/-! ### C7: loading with no path -/

/-- A file reader for the no-path case (never invoked there). -/
def noFileReader : Str → RawLibrary := fun _ => ⟨none, none⟩

/-- C7: the claim says loading with no path succeeds with an empty library,
but the source's no-path branch assigns fallbacks only to `lib_path` and
`lib_dir`, never to `lib_dir_url`, so the unconditional
`subs_vars["bal_library_dir_url"] = lib_dir_url` raises `UnboundLocalError`
and `load_library("")` never returns (let alone an `entities: {}` dict —
the function also never inserts an `"entities"` key). -/
theorem claim7_load_library_no_path_raises (readLibraryJson : Str → RawLibrary)
    (abspath dirname dirAsUri : Str → Str) :
    load_library [] readLibraryJson abspath dirname dirAsUri =
      Except.error PyRuntimeError.unboundLocalVariable := rfl

/-! ### C10: stable-reference handler on an empty version list -/

/-- C10: for an unversioned locator whose entity exists but has an empty
version list, `__get_relation_stable` indexes `versions[0]` of an empty
list, raising `IndexError` — an error outside the per-element taxonomy —
so the branch is only safe when the entity has at least one version. -/
theorem claim10_stable_empty_versions_index_error (entity_info : EntityInfo)
    (library : Library) (ed : EntityDict)
    (hv : entity_info.version = none)
    (hp : lookupStr library.entities entity_info.name = some ed)
    (he : ed.versions = []) :
    get_relation_stable entity_info library = Except.error BalError.indexError := by
  unfold get_relation_stable versionsOf library_entity_dict
  simp [hv, hp, he, descRange]

/-- C10 witness: the theorem applied to a library whose entity `a` has an
empty version list. -/
theorem claim10_witness :
    get_relation_stable infoA ⟨[(nameA, ⟨[], [], []⟩)], []⟩ =
      Except.error BalError.indexError :=
  claim10_stable_empty_versions_index_error infoA
    ⟨[(nameA, ⟨[], [], []⟩)], []⟩ ⟨[], [], []⟩ rfl (by decide) rfl

/-! ### C5: entity-versions relationship with a specified "latest" tag -/

/-- A relationship traits-data fixture: the version trait with
`specifiedTag = "latest"`, without the stable trait (the non-stable
variant of the entity-versions relationship). -/
def latestTagRelTraits : TraitsDict :=
  [(versionTraitId, [(specifiedTagKey, PyValue.s versionTagLatest)])]

/-- C5 counterexample: on an entity with two versions, the non-stable
entity-versions query with specified tag `latest` returns exactly one
locator, but it is the unversioned "always latest" locator, not the
version-2 locator the claim requires. -/
theorem claim5_counterexample :
    get_relations_entity_versions infoA latestTagRelTraits libTwoVersions =
      Except.ok [⟨nameA, none, accessRead⟩] ∧
    get_relations_entity_versions infoA latestTagRelTraits libTwoVersions ≠
      Except.ok [⟨nameA, some 2, accessRead⟩] := by
  have h1 : get_relations_entity_versions infoA latestTagRelTraits libTwoVersions =
      Except.ok [⟨nameA, none, accessRead⟩] := rfl
  refine ⟨h1, ?_⟩
  rw [h1]
  simp

/-- C5 amended: for every entity with two versions, the non-stable
entity-versions relationship query with specified tag `latest` returns
exactly one locator — the unversioned "always latest" locator
(`version = None`, the head that `include_latest` prepended) — which
differs from the concrete version-2 locator (the stable variant would
return that one instead). -/
theorem claim5_latest_returns_unversioned (entity_info : EntityInfo)
    (library : Library) (relationship_traits : TraitsDict) (ed : EntityDict)
    (hp : lookupStr library.entities entity_info.name = some ed)
    (hlen : ed.versions.length = 2)
    (hns : (traitSetOf relationship_traits).any (· = stableTraitId) = false)
    (ht : getSpecifiedTag relationship_traits = some versionTagLatest) :
    get_relations_entity_versions entity_info relationship_traits library =
      Except.ok [⟨entity_info.name, none, entity_info.access⟩] ∧
    (⟨entity_info.name, none, entity_info.access⟩ : EntityInfo) ≠
      ⟨entity_info.name, some 2, entity_info.access⟩ := by
  constructor
  · unfold get_relations_entity_versions versionsOf library_entity_dict
    rw [hns, hp, ht]
    have h1 : versionTagLatest ≠ ([] : Str) := by decide
    simp [hlen, descRange, h1]
  · simp

/-- C5 witness: the theorem applied to the two-version fixture. -/
theorem claim5_witness :
    get_relations_entity_versions infoA latestTagRelTraits libTwoVersions =
      Except.ok [⟨nameA, none, accessRead⟩] ∧
    (⟨nameA, none, accessRead⟩ : EntityInfo) ≠ ⟨nameA, some 2, accessRead⟩ :=
  claim5_latest_returns_unversioned infoA libTwoVersions latestTagRelTraits
    ⟨[vdPlain, vdPlain], [], []⟩ (by decide) (by decide) (by decide) (by decide)

/-! ### C9: dangling relation references fail closed -/

/-- Boolean success test for `Except` (used to keep witness hypotheses
decidable). -/
def isOkE {ε α : Type} : Except ε α → Bool
  | Except.ok _ => true
  | Except.error _ => false

theorem entity_of_missing_name (entity_info : EntityInfo) (library : Library)
    (environ : List (Str × Str))
    (h : lookupStr library.entities entity_info.name = none) :
    entity entity_info library environ =
      Except.error (BalError.unknownBALEntity entity_info) := by
  unfold entity library_entity_dict
  rw [h]

theorem relatedFromInfos_cons (result_trait_set : Option (List Str))
    (library : Library) (environ : List (Str × Str)) (ei : EntityInfo)
    (rest : List EntityInfo) :
    relatedFromInfos result_trait_set library environ (ei :: rest) =
      match entity ei library environ with
      | Except.error e => Except.error e
      | Except.ok relation_data =>
        match relatedFromInfos result_trait_set library environ rest with
        | Except.error e => Except.error e
        | Except.ok tail =>
          if resultFilterActive result_trait_set &&
              ! entity_has_trait_set relation_data (result_trait_set.getD []) then
            Except.ok tail
          else
            Except.ok (ei :: tail) := rfl

theorem relatedFromRelations_cons (requested_relation_traits : TraitsDict)
    (result_trait_set : Option (List Str)) (library : Library)
    (environ : List (Str × Str)) (relation : Relation) (rest : List Relation) :
    relatedFromRelations requested_relation_traits result_trait_set library
        environ (relation :: rest) =
      if ¬ dict_has_traits relation.traits requested_relation_traits then
        relatedFromRelations requested_relation_traits result_trait_set library
          environ rest
      else
        match relatedFromInfos result_trait_set library environ
          relation.entity_infos with
        | Except.error e => Except.error e
        | Except.ok here =>
          match relatedFromRelations requested_relation_traits result_trait_set
            library environ rest with
          | Except.error e => Except.error e
          | Except.ok tail => Except.ok (here ++ tail) := rfl

theorem relatedFromInfos_all_ok (result_trait_set : Option (List Str))
    (library : Library) (environ : List (Str × Str)) (eis : List EntityInfo)
    (h : ∀ ei ∈ eis, isOkE (entity ei library environ) = true) :
    ∃ l, relatedFromInfos result_trait_set library environ eis = Except.ok l := by
  induction eis with
  | nil => exact ⟨[], rfl⟩
  | cons e rest ih =>
    have he := h e (List.mem_cons_self e rest)
    obtain ⟨x, hx⟩ : ∃ x, entity e library environ = Except.ok x := by
      cases hc : entity e library environ with
      | error err => rw [hc] at he; simp [isOkE] at he
      | ok x => exact ⟨x, rfl⟩
    obtain ⟨l, hl⟩ := ih fun ei hm => h ei (List.mem_cons_of_mem e hm)
    rw [relatedFromInfos_cons, hx]
    dsimp only
    rw [hl]
    dsimp only
    by_cases hf : (resultFilterActive result_trait_set &&
        ! entity_has_trait_set x (result_trait_set.getD [])) = true
    · exact ⟨l, by rw [if_pos hf]⟩
    · exact ⟨e :: l, by rw [if_neg hf]⟩

theorem relatedFromInfos_missing (result_trait_set : Option (List Str))
    (library : Library) (environ : List (Str × Str)) (eis : List EntityInfo)
    (hok : ∀ ei ∈ eis, lookupStr library.entities ei.name = none ∨
      isOkE (entity ei library environ) = true)
    (hmiss : ∃ ei ∈ eis, lookupStr library.entities ei.name = none) :
    ∃ ei, lookupStr library.entities ei.name = none ∧
      relatedFromInfos result_trait_set library environ eis =
        Except.error (BalError.unknownBALEntity ei) := by
  induction eis with
  | nil => simp at hmiss
  | cons e rest ih =>
    by_cases hme : lookupStr library.entities e.name = none
    · refine ⟨e, hme, ?_⟩
      rw [relatedFromInfos_cons, entity_of_missing_name e library environ hme]
    · obtain ⟨x, hx⟩ : ∃ x, entity e library environ = Except.ok x := by
        rcases hok e (List.mem_cons_self e rest) with h | h
        · exact absurd h hme
        · cases hc : entity e library environ with
          | error err => rw [hc] at h; simp [isOkE] at h
          | ok x => exact ⟨x, rfl⟩
      have hmiss' : ∃ ei ∈ rest, lookupStr library.entities ei.name = none := by
        rcases hmiss with ⟨ei, hmem, hm⟩
        rcases List.mem_cons.mp hmem with rfl | hmem'
        · exact absurd hm hme
        · exact ⟨ei, hmem', hm⟩
      obtain ⟨ei, hm, herr⟩ :=
        ih (fun ei hm => hok ei (List.mem_cons_of_mem e hm)) hmiss'
      refine ⟨ei, hm, ?_⟩
      rw [relatedFromInfos_cons, hx]
      dsimp only
      rw [herr]

theorem relatedFromRelations_missing (requested_relation_traits : TraitsDict)
    (result_trait_set : Option (List Str)) (library : Library)
    (environ : List (Str × Str)) (rels : List Relation)
    (hok : ∀ rel ∈ rels, dict_has_traits rel.traits requested_relation_traits = true →
      ∀ ei ∈ rel.entity_infos, lookupStr library.entities ei.name = none ∨
        isOkE (entity ei library environ) = true)
    (hmiss : ∃ rel ∈ rels, dict_has_traits rel.traits requested_relation_traits = true ∧
      ∃ ei ∈ rel.entity_infos, lookupStr library.entities ei.name = none) :
    ∃ ei, lookupStr library.entities ei.name = none ∧
      relatedFromRelations requested_relation_traits result_trait_set library
        environ rels = Except.error (BalError.unknownBALEntity ei) := by
  induction rels with
  | nil => simp at hmiss
  | cons rel rest ih =>
    by_cases hmatch : dict_has_traits rel.traits requested_relation_traits = true
    · by_cases hrm : ∃ ei ∈ rel.entity_infos, lookupStr library.entities ei.name = none
      · obtain ⟨ei, hm, herr⟩ := relatedFromInfos_missing result_trait_set library
          environ rel.entity_infos (hok rel (List.mem_cons_self rel rest) hmatch) hrm
        refine ⟨ei, hm, ?_⟩
        rw [relatedFromRelations_cons, if_neg (by simp [hmatch]), herr]
      · have hall : ∀ ei ∈ rel.entity_infos,
            isOkE (entity ei library environ) = true := by
          intro ei hm
          rcases hok rel (List.mem_cons_self rel rest) hmatch ei hm with h | h
          · exact absurd ⟨ei, hm, h⟩ hrm
          · exact h
        obtain ⟨l, hl⟩ := relatedFromInfos_all_ok result_trait_set library environ
          rel.entity_infos hall
        have hmiss' : ∃ r ∈ rest,
            dict_has_traits r.traits requested_relation_traits = true ∧
            ∃ ei ∈ r.entity_infos, lookupStr library.entities ei.name = none := by
          rcases hmiss with ⟨r, hmem, hmt, hex⟩
          rcases List.mem_cons.mp hmem with rfl | hmem'
          · exact absurd hex hrm
          · exact ⟨r, hmem', hmt, hex⟩
        obtain ⟨ei, hm, herr⟩ :=
          ih (fun r hm => hok r (List.mem_cons_of_mem rel hm)) hmiss'
        refine ⟨ei, hm, ?_⟩
        rw [relatedFromRelations_cons, if_neg (by simp [hmatch]), hl]
        dsimp only
        rw [herr]
    · have hmiss' : ∃ r ∈ rest,
          dict_has_traits r.traits requested_relation_traits = true ∧
          ∃ ei ∈ r.entity_infos, lookupStr library.entities ei.name = none := by
        rcases hmiss with ⟨r, hmem, hmt, hex⟩
        rcases List.mem_cons.mp hmem with rfl | hmem'
        · exact absurd hmt hmatch
        · exact ⟨r, hmem', hmt, hex⟩
      obtain ⟨ei, hm, herr⟩ :=
        ih (fun r hm => hok r (List.mem_cons_of_mem rel hm)) hmiss'
      refine ⟨ei, hm, ?_⟩
      rw [relatedFromRelations_cons, if_pos hmatch, herr]

/-- C9: for every generic relationship query whose source entity resolves
and whose other related names resolve, if a relation surviving the
trait-pattern match names a related entity that is absent from the
library's entities mapping, `related_references` raises `UnknownBALEntity`
for such a missing entity — the same not-found error as a direct lookup —
rather than silently omitting the dangling entry from the results. -/
theorem claim9_dangling_relation_fails_closed (entity_info : EntityInfo)
    (requested_relation_traits : TraitsDict)
    (result_trait_set : Option (List Str)) (library : Library)
    (environ : List (Str × Str)) (entity_data : Entity)
    (hsrc : entity entity_info library environ = Except.ok entity_data)
    (hok : ∀ rel ∈ entity_data.relations,
      dict_has_traits rel.traits requested_relation_traits = true →
      ∀ ei ∈ rel.entity_infos, lookupStr library.entities ei.name = none ∨
        isOkE (entity ei library environ) = true)
    (hmiss : ∃ rel ∈ entity_data.relations,
      dict_has_traits rel.traits requested_relation_traits = true ∧
      ∃ ei ∈ rel.entity_infos, lookupStr library.entities ei.name = none) :
    ∃ ei, lookupStr library.entities ei.name = none ∧
      related_references entity_info requested_relation_traits
        result_trait_set library environ =
          Except.error (BalError.unknownBALEntity ei) := by
  obtain ⟨ei, hm, herr⟩ := relatedFromRelations_missing requested_relation_traits
    result_trait_set library environ entity_data.relations hok hmiss
  refine ⟨ei, hm, ?_⟩
  unfold related_references
  rw [hsrc]
  exact herr

/-- A library whose entity `a` has one version and one relation that names
the absent entity `missing`. -/
def libDangling : Library :=
  ⟨[(nameA, ⟨[vdPlain], [⟨[(traitT, [])], [nameMissing]⟩], []⟩)], []⟩

/-- C9 witness: the theorem applied to the dangling-relation fixture with an
empty query pattern (which every relation matches). -/
theorem claim9_witness :
    ∃ ei, lookupStr libDangling.entities ei.name = none ∧
      related_references infoA [] none libDangling [] =
        Except.error (BalError.unknownBALEntity ei) :=
  claim9_dangling_relation_fails_closed infoA [] none libDangling []
    ⟨some 1, [(traitT, [(propP, PyValue.s propP)])],
      [⟨[(traitT, [])], [⟨nameMissing, none, accessRead⟩]⟩]⟩
    (by rfl) (by decide) (by decide)

/-! ### C8: substitution with empty variables and environment -/

/-- No two adjacent `$` characters (no `$$` escape) in a string. -/
def noDoubleDollar : Str → Bool
  | c :: d :: rest => !(c = '$' && d = '$') && noDoubleDollar (d :: rest)
  | _ => true

/-- The amended claim's side condition on a record: every string property
has no `$$` escape, and every `file:`-prefixed string property is already
URL-path-normalized. -/
def substIdentityOK (entity_version_dict : VersionDict) : Bool :=
  match entity_version_dict.traits with
  | none => true
  | some td =>
    td.all fun tp =>
      tp.2.all fun kv =>
        match kv.2 with
        | PyValue.s v =>
          noDoubleDollar v &&
            (! hasPrefixChars "file:".data v ||
              decide (normalize_file_url v = v))
        | _ => true

theorem parseTmplIdent_append {l id r : Str}
    (h : parseTmplIdent l = some (id, r)) : id ++ r = l := by
  cases l with
  | nil => simp [parseTmplIdent] at h
  | cons c cs =>
    simp only [parseTmplIdent] at h
    split at h
    · simp only [Option.some.injEq, Prod.mk.injEq] at h
      rw [← h.1, ← h.2]
      simp [List.takeWhile_append_dropWhile]
    · exact absurd h (by simp)

theorem noDoubleDollar_tail {c : Char} {l : Str}
    (h : noDoubleDollar (c :: l) = true) : noDoubleDollar l = true := by
  cases l with
  | nil => rfl
  | cons d rest =>
    simp only [noDoubleDollar, Bool.and_eq_true] at h
    exact h.2

theorem noDoubleDollar_append_right {a b : Str}
    (h : noDoubleDollar (a ++ b) = true) : noDoubleDollar b = true := by
  induction a with
  | nil => exact h
  | cons x xs ih => exact ih (noDoubleDollar_tail h)

theorem subChunk_nil_vars_append (c : Char) (rest : Str)
    (hnd : noDoubleDollar (c :: rest) = true) :
    (subChunk [] (c :: rest)).1 ++ (subChunk [] (c :: rest)).2 = c :: rest := by
  by_cases hc : c = '$'
  · subst hc
    cases rest with
    | nil => rfl
    | cons d ds =>
      have hd : ¬ d = '$' := by
        simp only [noDoubleDollar, Bool.and_eq_true, Bool.not_eq_eq_eq_not,
          Bool.not_true, Bool.and_eq_false_imp] at hnd
        intro hcon
        have := hnd.1
        simp [hcon] at this
      by_cases hb : d = '{'
      · subst hb
        cases hpi : parseTmplIdent ds with
        | none => simp [subChunk, hpi]
        | some p =>
          obtain ⟨id, r⟩ := p
          cases r with
          | nil => simp [subChunk, hpi]
          | cons r0 rs =>
            by_cases hr : r0 = '}'
            · subst hr
              have happ := parseTmplIdent_append hpi
              simp only [subChunk, hpi, lookupStr]
              rw [← happ]
              simp
            · simp [subChunk, hpi, hr]
      · cases hpi : parseTmplIdent (d :: ds) with
        | none => simp [subChunk, hd, hb, hpi]
        | some p =>
          obtain ⟨id, r2⟩ := p
          have happ := parseTmplIdent_append hpi
          simp only [subChunk, hd, hb, hpi, lookupStr, if_neg, if_pos]
          rw [← happ]
          simp
  · simp [subChunk, hc]

theorem subChunk_nil_vars_suffix_noDD (c : Char) (rest : Str)
    (hnd : noDoubleDollar (c :: rest) = true) :
    noDoubleDollar (subChunk [] (c :: rest)).2 = true := by
  have happ := subChunk_nil_vars_append c rest hnd
  rw [← happ] at hnd
  exact noDoubleDollar_append_right hnd

theorem safeSubstituteFuel_nil_vars (fuel : Nat) (s : Str)
    (hlen : s.length ≤ fuel) (hnd : noDoubleDollar s = true) :
    safeSubstituteFuel [] fuel s = s := by
  induction fuel generalizing s with
  | zero =>
    cases s with
    | nil => rfl
    | cons c rest => simp at hlen
  | succ f ih =>
    cases s with
    | nil => rfl
    | cons c rest =>
      have hlt := subChunk_length_lt [] c rest
      have hsuf := subChunk_nil_vars_suffix_noDD c rest hnd
      have hrec := subChunk_nil_vars_append c rest hnd
      unfold safeSubstituteFuel
      rw [ih (subChunk [] (c :: rest)).2
        (by simp only [List.length_cons] at hlt hlen ⊢; omega) hsuf]
      exact hrec

theorem safeSubstitute_nil_vars (s : Str) (hnd : noDoubleDollar s = true) :
    safeSubstitute [] s = s :=
  safeSubstituteFuel_nil_vars s.length s (le_refl s.length) hnd

theorem listMapSelf {α : Type} (f : α → α) :
    ∀ l : List α, (∀ x ∈ l, f x = x) → l.map f = l := by
  intro l h
  induction l with
  | nil => rfl
  | cons x xs ih =>
    simp only [List.map_cons, h x (List.mem_cons_self x xs),
      ih fun y hy => h y (List.mem_cons_of_mem x hy)]

/-- C8 amended: substitution with an empty variables mapping and an empty
environment returns the record unchanged, provided no string property
contains the `$$` escape (which `safe_substitute` collapses to a single `$`
even with no variables) and every `file:`-prefixed string property is
already URL-path-normalized (`_copy_and_expand_trait_properties` always
normalizes `file:` values after substituting). -/
theorem claim8_substitution_identity (entity_version_dict : VersionDict)
    (library : Library) (hvars : library.variablesMap = [])
    (hok : substIdentityOK entity_version_dict = true) :
    copy_and_expand_trait_properties entity_version_dict [] library =
      entity_version_dict := by
  unfold copy_and_expand_trait_properties
  rw [hvars]
  cases entity_version_dict with
  | mk traits =>
    cases traits with
    | none => rfl
    | some td =>
      simp only [substIdentityOK, List.all_eq_true] at hok
      simp only [Option.map_some', VersionDict.mk.injEq, Option.some.injEq,
        List.append_nil]
      apply listMapSelf
      intro tp htp
      have hprops := hok tp htp
      cases tp with
      | mk tid props =>
        simp only [Prod.mk.injEq, true_and]
        apply listMapSelf
        intro kv hkv
        have hkvok := hprops kv hkv
        cases kv with
        | mk k v =>
          cases v with
          | s sv =>
            simp only [Bool.and_eq_true, Bool.or_eq_true, Bool.not_eq_eq_eq_not,
              Bool.not_true, decide_eq_true_eq] at hkvok
            obtain ⟨hnd, hfile⟩ := hkvok
            simp only [safeSubstitute_nil_vars sv hnd, Prod.mk.injEq, true_and]
            by_cases hpfx : hasPrefixChars "file:".data sv = true
            · rcases hfile with hcon | hnorm
              · rw [hpfx] at hcon; cases hcon
              · simp [hpfx, hnorm]
            · simp only [Bool.not_eq_true] at hpfx
              simp [hpfx]
          | i iv => rfl
          | b bv => rfl

/-- A record whose single string property is benign for substitution. -/
def vdBenign : VersionDict := ⟨some [(traitT, [(propP, PyValue.s propP)])]⟩

/-- C8 witness: the amended theorem applied to a record whose string
property contains no `$$` and no `file:` prefix. -/
theorem claim8_witness :
    copy_and_expand_trait_properties vdBenign [] libEmpty = vdBenign :=
  claim8_substitution_identity vdBenign libEmpty rfl (by decide)

/-- A second sample property key. -/
def propQ : Str := "q".data

/-- The `$$` escape string. -/
def strDollarDollar : Str := "$$".data

/-- A `file:` URL with an upward traversal. -/
def strFileDotDot : Str := "file:///a/../b".data

/-- A record with a `$$` escape in one property and an unnormalized `file:`
URL in another. -/
def vdChanging : VersionDict :=
  ⟨some [(traitT, [(propP, PyValue.s strDollarDollar),
                   (propQ, PyValue.s strFileDotDot)])]⟩

/-- C8 counterexample: substitution with empty variables and environment
still rewrites the record — the `$$` escape collapses to `$` and the
`file:` URL has its `..` segment normalized away — so the claim's "returns
the record unchanged, every string preserved verbatim" fails. -/
theorem claim8_counterexample :
    copy_and_expand_trait_properties vdChanging [] libEmpty =
      ⟨some [(traitT, [(propP, PyValue.s ['$']),
                       (propQ, PyValue.s "file:///b".data)])]⟩ ∧
    copy_and_expand_trait_properties vdChanging [] libEmpty ≠ vdChanging := by
  constructor
  · rfl
  · decide

/-! ### C4: reference round-trip -/

/-- The name `a?b`: non-empty but containing a `?`. -/
def nameWithQM : Str := "a?b".data

/-- C4 counterexample: a locator with the valid (non-empty) name `a?b`
formats to `bal:///a?b`, whose `?` is consumed as the query separator by the
URI parse, so parsing yields the locator for `a` — not the original. -/
theorem claim4_counterexample :
    parse_entity_ref (build_entity_ref ⟨nameWithQM, none, accessRead⟩)
        accessRead = Except.ok ⟨nameA, none, accessRead⟩ ∧
    (⟨nameA, none, accessRead⟩ : EntityInfo) ≠ ⟨nameWithQM, none, accessRead⟩ := by
  constructor
  · rfl
  · decide

/-- Characters of an entity name that survive the reference round-trip: the
URI parse consumes `?` (query) and `#` (fragment) and deletes tab, CR and
LF, so those five characters are excluded. -/
def goodNameChar (c : Char) : Bool :=
  !(c = '?' || c = '#' || c = '\t' || c = '\r' || c = '\n')

theorem natToCharsFuel_all_digits :
    ∀ fuel n, n < fuel → (natToCharsFuel fuel n).all isDigitCh = true := by
  intro fuel
  induction fuel with
  | zero => intro n h; omega
  | succ f ih =>
    intro n h
    unfold natToCharsFuel
    by_cases h10 : n < 10
    · have : isDigitCh (digitCh n) = true := by interval_cases n <;> decide
      simp [h10, this]
    · have hdiv : n / 10 < f := by
        have := Nat.div_lt_self (by omega : 0 < n) (by omega : 1 < 10)
        omega
      have hmod : isDigitCh (digitCh (n % 10)) = true := by
        have : n % 10 < 10 := Nat.mod_lt n (by omega)
        interval_cases h : n % 10 <;> decide
      simp [h10, List.all_append, ih (n / 10) hdiv, hmod]

theorem natToCharsFuel_ne_nil :
    ∀ fuel n, n < fuel → natToCharsFuel fuel n ≠ [] := by
  intro fuel
  induction fuel with
  | zero => intro n h; omega
  | succ f ih =>
    intro n h
    unfold natToCharsFuel
    by_cases h10 : n < 10
    · simp [h10]
    · simp [h10]

theorem digitsVal_append_digit (l : Str) (v : Nat) (c : Char)
    (hl : digitsVal l = some v) (hc : isDigitCh c = true) :
    digitsVal (l ++ [c]) = some (10 * v + (c.toNat - 48)) := by
  unfold digitsVal at hl ⊢
  split at hl
  · next hcond =>
    simp only [Option.some.injEq] at hl
    have hnil : l ++ [c] ≠ [] := by simp
    have hall : (l ++ [c]).all isDigitCh = true := by
      simp [List.all_append, hcond.2, hc]
    rw [if_pos ⟨hnil, hall⟩]
    simp [List.foldl_append, hl]
  · exact absurd hl (by simp)

theorem digitsVal_natToCharsFuel :
    ∀ fuel n, n < fuel → digitsVal (natToCharsFuel fuel n) = some n := by
  intro fuel
  induction fuel with
  | zero => intro n h; omega
  | succ f ih =>
    intro n h
    unfold natToCharsFuel
    by_cases h10 : n < 10
    · rw [if_pos h10]
      interval_cases n <;> decide
    · rw [if_neg h10]
      have hdiv : n / 10 < f := by
        have := Nat.div_lt_self (by omega : 0 < n) (by omega : 1 < 10)
        omega
      have hmod10 : n % 10 < 10 := Nat.mod_lt n (by omega)
      have hdig : isDigitCh (digitCh (n % 10)) = true := by
        interval_cases h : n % 10 <;> decide
      have htn : (digitCh (n % 10)).toNat = 48 + n % 10 := by
        interval_cases h : n % 10 <;> decide
      rw [digitsVal_append_digit _ _ _ (ih (n / 10) hdiv) hdig, htn]
      have := Nat.div_add_mod n 10
      congr 1
      omega

theorem natToChars_all_digits (n : Nat) :
    (natToChars n).all isDigitCh = true :=
  natToCharsFuel_all_digits (n + 1) n (Nat.lt_succ_self n)

theorem natToChars_ne_nil (n : Nat) : natToChars n ≠ [] :=
  natToCharsFuel_ne_nil (n + 1) n (Nat.lt_succ_self n)

theorem digitsVal_natToChars (n : Nat) : digitsVal (natToChars n) = some n :=
  digitsVal_natToCharsFuel (n + 1) n (Nat.lt_succ_self n)

theorem isPySpace_of_digit {c : Char} (h : isDigitCh c = true) :
    isPySpace c = false := by
  have h1 : c ≠ ' ' := by intro e; subst e; exact absurd h (by decide)
  have h2 : c ≠ '\t' := by intro e; subst e; exact absurd h (by decide)
  have h3 : c ≠ '\n' := by intro e; subst e; exact absurd h (by decide)
  have h4 : c ≠ '\r' := by intro e; subst e; exact absurd h (by decide)
  have hv : 48 ≤ c.toNat := by
    simp only [isDigitCh, Bool.and_eq_true, decide_eq_true_eq] at h
    exact h.1
  simp [isPySpace, h1, h2, h3, h4]
  omega

theorem dropWhile_eq_self_of_false {p : Char → Bool} {l : Str}
    (h : ∀ c ∈ l, p c = false) : l.dropWhile p = l := by
  cases l with
  | nil => rfl
  | cons c rest =>
    simp [List.dropWhile, h c (List.mem_cons_self c rest)]

theorem pyIntOfChars_natToChars (n : Nat) :
    pyIntOfChars (natToChars n) = some (n : Int) := by
  have hall := natToChars_all_digits n
  have hnos : ∀ c ∈ natToChars n, isPySpace c = false := by
    intro c hm
    exact isPySpace_of_digit (by
      rw [List.all_eq_true] at hall
      exact hall c hm)
  have hstep1 : (natToChars n).dropWhile isPySpace = natToChars n :=
    dropWhile_eq_self_of_false hnos
  have hstep2 : (natToChars n).reverse.dropWhile isPySpace =
      (natToChars n).reverse := by
    apply dropWhile_eq_self_of_false
    intro c hm
    exact hnos c (List.mem_reverse.mp hm)
  unfold pyIntOfChars
  rw [hstep1, hstep2, List.reverse_reverse]
  cases hsh : natToChars n with
  | nil => exact absurd hsh (natToChars_ne_nil n)
  | cons c cs =>
    have hcd : isDigitCh c = true := by
      rw [hsh, List.all_cons, Bool.and_eq_true] at hall
      exact hall.1
    have hplus : ¬ c = '+' := by intro e; subst e; exact absurd hcd (by decide)
    have hminus : ¬ c = '-' := by intro e; subst e; exact absurd hcd (by decide)
    dsimp only
    rw [if_neg hplus, if_neg hminus, ← hsh, digitsVal_natToChars]
    rfl

theorem digit_ne {c : Char} (x : Char) (h : isDigitCh c = true)
    (hx : isDigitCh x = false) : c ≠ x := by
  intro e
  rw [e, hx] at h
  cases h

theorem splitFirst_cons_eq (c : Char) (xs : Str) :
    splitFirst c (c :: xs) = some ([], xs) := by
  simp [splitFirst]

theorem splitFirst_cons_ne {x c : Char} (h : x ≠ c) (xs : Str) :
    splitFirst c (x :: xs) = (splitFirst c xs).map fun p => (x :: p.1, p.2) := by
  simp [splitFirst, h]

theorem splitFirst_eq_none {c : Char} :
    ∀ {l : Str}, (∀ x ∈ l, x ≠ c) → splitFirst c l = none := by
  intro l
  induction l with
  | nil => intro _; rfl
  | cons x xs ih =>
    intro h
    rw [splitFirst_cons_ne (h x (List.mem_cons_self x xs)),
      ih fun y hy => h y (List.mem_cons_of_mem x hy)]
    rfl

theorem splitFirst_append {c : Char} :
    ∀ (a b : Str), (∀ x ∈ a, x ≠ c) → splitFirst c (a ++ c :: b) = some (a, b) := by
  intro a
  induction a with
  | nil => intro b _; exact splitFirst_cons_eq c b
  | cons x xs ih =>
    intro b h
    rw [List.cons_append, splitFirst_cons_ne (h x (List.mem_cons_self x xs)),
      ih b fun y hy => h y (List.mem_cons_of_mem x hy)]
    rfl

theorem splitAll_no_sep {c : Char} :
    ∀ (l : Str), (∀ x ∈ l, x ≠ c) → splitAll c l = [l] := by
  intro l
  induction l with
  | nil => intro _; rfl
  | cons x xs ih =>
    intro h
    have hx : ¬ x = c := h x (List.mem_cons_self x xs)
    simp only [splitAll, if_neg hx, ih fun y hy => h y (List.mem_cons_of_mem x hy)]

theorem filter_keep_all {p : Char → Bool} :
    ∀ l : Str, (∀ c ∈ l, p c = true) → l.filter p = l := by
  intro l
  induction l with
  | nil => intro _; rfl
  | cons x xs ih =>
    intro h
    simp [List.filter_cons, h x (List.mem_cons_self x xs),
      ih fun y hy => h y (List.mem_cons_of_mem x hy)]

theorem replaceChar_id {a b : Char} (l : Str) (h : ∀ c ∈ l, c ≠ a) :
    replaceChar a b l = l := by
  apply listMapSelf
  intro c hm
  simp [h c hm]

theorem unquote_no_pct : ∀ l : Str, (∀ c ∈ l, c ≠ '%') → unquoteChars l = l := by
  intro l
  induction l with
  | nil => intro _; rfl
  | cons c rest ih =>
    intro h
    have hc : ¬ c = '%' := h c (List.mem_cons_self c rest)
    have htail := ih fun y hy => h y (List.mem_cons_of_mem c hy)
    cases rest with
    | nil => simp [unquoteChars]
    | cons h1 r1 =>
      cases r1 with
      | nil => simp [unquoteChars, htail]
      | cons h2 r2 =>
        simp [unquoteChars, hc, htail]

theorem goodNameChar_props {c : Char} (h : goodNameChar c = true) :
    c ≠ '?' ∧ c ≠ '#' ∧ c ≠ '\t' ∧ c ≠ '\r' ∧ c ≠ '\n' := by
  refine ⟨?_, ?_, ?_, ?_, ?_⟩ <;>
    exact fun e => by subst e; exact absurd h (by decide)

theorem keep_of_goodNameChar {c : Char} (h : goodNameChar c = true) :
    (!(c = '\t' || c = '\r' || c = '\n')) = true := by
  obtain ⟨_, _, h3, h4, h5⟩ := goodNameChar_props h
  simp [h3, h4, h5]

theorem keep_of_digit {c : Char} (h : isDigitCh c = true) :
    (!(c = '\t' || c = '\r' || c = '\n')) = true := by
  have h3 := digit_ne '\t' h (by decide)
  have h4 := digit_ne '\r' h (by decide)
  have h5 := digit_ne '\n' h (by decide)
  simp [h3, h4, h5]

theorem removeUnsafe_bal (X : Str)
    (hkeep : ∀ c ∈ X, (!(c = '\t' || c = '\r' || c = '\n')) = true) :
    removeUnsafeUrlBytes (balRefHead ++ X) = balRefHead ++ X := by
  unfold removeUnsafeUrlBytes
  rw [List.filter_append, filter_keep_all X hkeep]
  rfl

theorem schemeSplit_bal (X : Str) :
    schemeSplit (balRefHead ++ X) =
      (['b', 'a', 'l'], '/' :: '/' :: '/' :: X) := by
  have h0 : balRefHead ++ X = 'b' :: 'a' :: 'l' :: ':' :: '/' :: '/' :: '/' :: X := rfl
  have hsplit : splitFirst ':' ('b' :: 'a' :: 'l' :: ':' :: '/' :: '/' :: '/' :: X) =
      some (['b', 'a', 'l'], '/' :: '/' :: '/' :: X) := by
    rw [splitFirst_cons_ne (by decide), splitFirst_cons_ne (by decide),
      splitFirst_cons_ne (by decide), splitFirst_cons_eq]
    rfl
  rw [h0]
  unfold schemeSplit
  rw [hsplit]
  rfl

theorem urlsplitChars_bal_noquery (nm : Str) (hgood : nm.all goodNameChar = true) :
    urlsplitChars (balRefHead ++ nm) =
      ⟨['b', 'a', 'l'], [], '/' :: nm, [], []⟩ := by
  have hall : ∀ c ∈ nm, goodNameChar c = true := List.all_eq_true.mp hgood
  have hrm := removeUnsafe_bal nm fun c hm => keep_of_goodNameChar (hall c hm)
  have hsch := schemeSplit_bal nm
  have hnet : netlocStep ('/' :: '/' :: '/' :: nm) = ([], '/' :: nm) := rfl
  have hnohash : ∀ x ∈ '/' :: nm, x ≠ '#' := by
    intro x hx
    rcases List.mem_cons.mp hx with rfl | hx'
    · decide
    · exact (goodNameChar_props (hall x hx')).2.1
  have hfrag : fragmentStep ('/' :: nm) = ('/' :: nm, []) := by
    unfold fragmentStep
    rw [splitFirst_eq_none hnohash]
  have hnoq : ∀ x ∈ '/' :: nm, x ≠ '?' := by
    intro x hx
    rcases List.mem_cons.mp hx with rfl | hx'
    · decide
    · exact (goodNameChar_props (hall x hx')).1
  have hq : queryStep ('/' :: nm) = ('/' :: nm, []) := by
    unfold queryStep
    rw [splitFirst_eq_none hnoq]
  simp only [urlsplitChars, hrm, hsch, hnet, hfrag, hq]

theorem urlsplitChars_bal_query (nm D : Str) (hgood : nm.all goodNameChar = true)
    (hD : D.all isDigitCh = true) :
    urlsplitChars (balRefHead ++ (nm ++ '?' :: 'v' :: '=' :: D)) =
      ⟨['b', 'a', 'l'], [], '/' :: nm, 'v' :: '=' :: D, []⟩ := by
  have hall : ∀ c ∈ nm, goodNameChar c = true := List.all_eq_true.mp hgood
  have hallD : ∀ c ∈ D, isDigitCh c = true := List.all_eq_true.mp hD
  have hkeep : ∀ c ∈ nm ++ '?' :: 'v' :: '=' :: D,
      (!(c = '\t' || c = '\r' || c = '\n')) = true := by
    intro c hc
    rcases List.mem_append.mp hc with hc' | hc'
    · exact keep_of_goodNameChar (hall c hc')
    · rcases List.mem_cons.mp hc' with rfl | hc'
      · decide
      · rcases List.mem_cons.mp hc' with rfl | hc'
        · decide
        · rcases List.mem_cons.mp hc' with rfl | hc'
          · decide
          · exact keep_of_digit (hallD c hc')
  have hrm := removeUnsafe_bal (nm ++ '?' :: 'v' :: '=' :: D) hkeep
  have hsch := schemeSplit_bal (nm ++ '?' :: 'v' :: '=' :: D)
  have hnet : netlocStep ('/' :: '/' :: '/' :: (nm ++ '?' :: 'v' :: '=' :: D)) =
      ([], '/' :: (nm ++ '?' :: 'v' :: '=' :: D)) := rfl
  have hnohash : ∀ x ∈ '/' :: (nm ++ '?' :: 'v' :: '=' :: D), x ≠ '#' := by
    intro x hx
    rcases List.mem_cons.mp hx with rfl | hx'
    · decide
    · rcases List.mem_append.mp hx' with hx'' | hx''
      · exact (goodNameChar_props (hall x hx'')).2.1
      · rcases List.mem_cons.mp hx'' with rfl | hx''
        · decide
        · rcases List.mem_cons.mp hx'' with rfl | hx''
          · decide
          · rcases List.mem_cons.mp hx'' with rfl | hx''
            · decide
            · exact digit_ne '#' (hallD x hx'') (by decide)
  have hfrag : fragmentStep ('/' :: (nm ++ '?' :: 'v' :: '=' :: D)) =
      ('/' :: (nm ++ '?' :: 'v' :: '=' :: D), []) := by
    unfold fragmentStep
    rw [splitFirst_eq_none hnohash]
  have hnoq : ∀ x ∈ '/' :: nm, x ≠ '?' := by
    intro x hx
    rcases List.mem_cons.mp hx with rfl | hx'
    · decide
    · exact (goodNameChar_props (hall x hx')).1
  have hshape : '/' :: (nm ++ '?' :: 'v' :: '=' :: D) =
      ('/' :: nm) ++ '?' :: ('v' :: '=' :: D) := by simp
  have hq : queryStep ('/' :: (nm ++ '?' :: 'v' :: '=' :: D)) =
      ('/' :: nm, 'v' :: '=' :: D) := by
    unfold queryStep
    rw [hshape, splitFirst_append ('/' :: nm) ('v' :: '=' :: D) hnoq]
  simp only [urlsplitChars, hrm, hsch, hnet, hfrag, hq]

theorem usesParams_not_bal : usesParamsSchemes.any (· = ['b', 'a', 'l']) = false := by
  decide

theorem urlparseChars_bal_noquery (nm : Str) (hgood : nm.all goodNameChar = true) :
    urlparseChars (balRefHead ++ nm) =
      ⟨['b', 'a', 'l'], [], '/' :: nm, [], [], []⟩ := by
  unfold urlparseChars
  rw [urlsplitChars_bal_noquery nm hgood]
  simp [usesParams_not_bal]

theorem urlparseChars_bal_query (nm D : Str) (hgood : nm.all goodNameChar = true)
    (hD : D.all isDigitCh = true) :
    urlparseChars (balRefHead ++ (nm ++ '?' :: 'v' :: '=' :: D)) =
      ⟨['b', 'a', 'l'], [], '/' :: nm, [], 'v' :: '=' :: D, []⟩ := by
  unfold urlparseChars
  rw [urlsplitChars_bal_query nm D hgood hD]
  simp [usesParams_not_bal]

theorem parseQsl_v_digits (D : Str) (hD : D.all isDigitCh = true)
    (hne : D ≠ []) : parseQsl ('v' :: '=' :: D) = [(['v'], D)] := by
  have hallD := List.all_eq_true.mp hD
  have hamp : ∀ x ∈ 'v' :: '=' :: D, x ≠ '&' := by
    intro x hx
    rcases List.mem_cons.mp hx with rfl | hx'
    · decide
    · rcases List.mem_cons.mp hx' with rfl | hx''
      · decide
      · exact digit_ne '&' (hallD x hx'') (by decide)
  have hsa : splitAll '&' ('v' :: '=' :: D) = ['v' :: '=' :: D] :=
    splitAll_no_sep _ hamp
  have hse : splitFirst '=' ('v' :: '=' :: D) = some (['v'], D) := by
    rw [splitFirst_cons_ne (by decide), splitFirst_cons_eq]
    rfl
  have hrD : replaceChar '+' ' ' D = D :=
    replaceChar_id D fun c hm => digit_ne '+' (hallD c hm) (by decide)
  have huD : unquoteChars D = D :=
    unquote_no_pct D fun c hm => digit_ne '%' (hallD c hm) (by decide)
  unfold parseQsl
  rw [if_neg (by simp : ¬ ('v' :: '=' :: D) = ([] : Str)), hsa,
    List.filterMap_cons]
  rw [if_neg (by simp : ¬ ('v' :: '=' :: D) = ([] : Str)), hse]
  dsimp only
  rw [if_neg hne, hrD, huD]
  rfl

theorem lastQueryValue_v_digits (D : Str) (hD : D.all isDigitCh = true)
    (hne : D ≠ []) : lastQueryValue ('v' :: '=' :: D) vParamKey = some D := by
  unfold lastQueryValue
  rw [parseQsl_v_digits D hD hne]
  rfl

theorem version_from_query_params_natToChars (v : Nat) (hge : 1 ≤ v)
    (ref : Str) :
    version_from_query_params ('v' :: '=' :: natToChars v) ref =
      Except.ok (some v) := by
  have hlast := lastQueryValue_v_digits (natToChars v) (natToChars_all_digits v)
    (natToChars_ne_nil v)
  have hnl : ¬ (natToChars v = versionTagLatest) := by
    intro e
    have hd := natToChars_all_digits v
    rw [e] at hd
    exact absurd hd (by decide)
  unfold version_from_query_params
  rw [hlast]
  dsimp only
  rw [if_neg hnl, pyIntOfChars_natToChars]
  dsimp only
  rw [if_neg (by omega : ¬ ((v : Int) < 1))]
  simp

/-- C4 amended: for every locator whose name is non-empty and contains none
of `?`, `#`, tab, CR, LF (the characters the URI parse treats as query or
fragment separators or deletes), and whose version is `None` or an integer
at least 1, parsing the formatted reference with the locator's own access
mode yields the original locator; `version = None` formats without a query
string. -/
theorem claim4_round_trip (entity_info : EntityInfo)
    (hname : entity_info.name ≠ [])
    (hchars : entity_info.name.all goodNameChar = true)
    (hver : entity_info.version = none ∨
      ∃ v, entity_info.version = some v ∧ 1 ≤ v) :
    parse_entity_ref (build_entity_ref entity_info) entity_info.access =
      Except.ok entity_info := by
  obtain ⟨nm, ver, acc⟩ := entity_info
  simp only at hname hchars hver
  have hlen : ¬ (('/' :: nm).length ≤ 1) := by
    cases nm with
    | nil => exact absurd rfl hname
    | cons a b => simp
  rcases hver with hv | ⟨v, hv, hge⟩
  · subst hv
    have hbuild : build_entity_ref ⟨nm, none, acc⟩ = balRefHead ++ nm := by
      simp [build_entity_ref]
    rw [hbuild]
    unfold parse_entity_ref
    rw [urlparseChars_bal_noquery nm hchars]
    dsimp only
    rw [if_neg hlen]
    rfl
  · subst hv
    have hvne : v ≠ 0 := by omega
    have hbuild : build_entity_ref ⟨nm, some v, acc⟩ =
        balRefHead ++ (nm ++ '?' :: 'v' :: '=' :: natToChars v) := by
      simp [build_entity_ref, hvne]
    rw [hbuild]
    unfold parse_entity_ref
    rw [urlparseChars_bal_query nm (natToChars v) hchars (natToChars_all_digits v)]
    dsimp only
    rw [if_neg hlen]
    rw [if_pos (by simp : ('v' :: '=' :: natToChars v) ≠ ([] : Str))]
    rw [version_from_query_params_natToChars v hge]
    rfl

/-- A plain three-letter name fixture. -/
def nameAbc : Str := "abc".data

/-- C4 witness: the amended round trip applied to the locator `abc` at
version 2. -/
theorem claim4_witness :
    parse_entity_ref (build_entity_ref ⟨nameAbc, some 2, accessRead⟩)
        accessRead = Except.ok ⟨nameAbc, some 2, accessRead⟩ :=
  claim4_round_trip ⟨nameAbc, some 2, accessRead⟩ (by decide) (by decide)
    (Or.inr ⟨2, rfl, by omega⟩)
